import Mathlib

/-!
# Verification of the arbitrage detection/scoring/sizing core

Shallow embedding, over exact rational arithmetic, of the parts of the
prediction-market arbitrage bot that the claims concern:

* `src/src/market/market_data.py` — the `Market` snapshot record;
* `src/src/arbitrage/strategies/yes_no_imbalance.py`;
* `src/src/arbitrage/strategies/cross_market.py`;
* `src/src/arbitrage/strategies/multi_leg.py`;
* `src/src/arbitrage/strategies/time_based.py`;
* `src/src/arbitrage/scorer.py`;
* `src/src/execution/position_sizing.py`.

Python `float` values are modelled as `ℚ`.  Python's raising `/` is modelled
explicitly: `pydiv` returns `Except PyErr ℚ` and fails with `ZeroDivisionError`
on a zero denominator, so code paths that can raise in Python are `Except`
computations here, and code paths that are pure in Python stay pure.
-/

/-- The only exception the embedded code can raise: Python's
`ZeroDivisionError` from dividing by zero. -/
inductive PyErr where
  | zeroDivision
deriving DecidableEq, Repr

/-- Python division on floats: raises `ZeroDivisionError` when the denominator
is zero, otherwise returns the exact quotient. -/
def pydiv (a b : ℚ) : Except PyErr ℚ :=
  if b = 0 then .error .zeroDivision else .ok (a / b)

/-- Market status enumeration (`MarketStatus` in `market_data.py`). -/
inductive MarketStatus where
  | active
  | closed
  | resolved
  | suspended
deriving DecidableEq, Repr

/-- One market snapshot (`Market` dataclass in `market_data.py`).
`end_date` is a `datetime`, modelled as seconds since the epoch; all prices,
volume and liquidity are floats, modelled as `ℚ`.  The `metadata` dict is
never read by the embedded code and is omitted. -/
structure Market where
  market_id : String
  question : String
  description : String
  category : String
  end_date : ℚ
  status : MarketStatus
  yes_price : ℚ
  no_price : ℚ
  yes_bid : ℚ
  yes_ask : ℚ
  no_bid : ℚ
  no_ask : ℚ
  volume_24h : ℚ
  liquidity : ℚ
deriving DecidableEq, Repr

/-! ## YES/NO imbalance strategy (`yes_no_imbalance.py`) -/

/-- `YesNoImbalanceOpportunity` dataclass. -/
structure YesNoImbalanceOpportunity where
  market : Market
  yes_price : ℚ
  no_price : ℚ
  price_sum : ℚ
  imbalance : ℚ
  profit_percentage : ℚ
  expected_profit : ℚ
  action : String
deriving DecidableEq, Repr

/-- The body of `YesNoImbalanceStrategy.detect` for one market of the input
list: the buy-side check (`buy_sum = yes_ask + no_ask`, trigger
`1 - buy_sum > imbalance_threshold`, gate `imbalance / buy_sum * 100 >=
min_profit_pct`) followed by the sell-side check (`sell_sum = yes_bid +
no_bid`, trigger `sell_sum - 1 > imbalance_threshold`, gate
`imbalance / 1.0 * 100 >= min_profit_pct`).  The divisions are Python `/`,
hence `pydiv`. -/
def yesNoMarketOpps (min_profit_pct imbalance_threshold : ℚ) (market : Market) :
    Except PyErr (List YesNoImbalanceOpportunity) := do
  let buy_sum := market.yes_ask + market.no_ask
  let buy_imbalance := 1 - buy_sum
  let buyOpps ←
    if imbalance_threshold < buy_imbalance then do
      let q ← pydiv buy_imbalance buy_sum
      let profit_pct := q * 100
      if min_profit_pct ≤ profit_pct then
        pure [{ market := market
                yes_price := market.yes_ask
                no_price := market.no_ask
                price_sum := buy_sum
                imbalance := buy_imbalance
                profit_percentage := profit_pct
                expected_profit := buy_imbalance * 100
                action := "buy_both" }]
      else pure []
    else pure []
  let sell_sum := market.yes_bid + market.no_bid
  let sell_imbalance := sell_sum - 1
  let sellOpps ←
    if imbalance_threshold < sell_imbalance then do
      let q ← pydiv sell_imbalance 1
      let profit_pct := q * 100
      if min_profit_pct ≤ profit_pct then
        pure [{ market := market
                yes_price := market.yes_bid
                no_price := market.no_bid
                price_sum := sell_sum
                imbalance := sell_imbalance
                profit_percentage := profit_pct
                expected_profit := sell_imbalance * 100
                action := "sell_both" }]
      else pure []
    else pure []
  return buyOpps ++ sellOpps

/-- `YesNoImbalanceStrategy.detect`: fold `yesNoMarketOpps` over the input
list, concatenating in input order; an exception while processing one market
aborts the whole call, exactly as an uncaught Python exception would. -/
def yesNoDetect (min_profit_pct imbalance_threshold : ℚ) :
    List Market → Except PyErr (List YesNoImbalanceOpportunity)
  | [] => .ok []
  | m :: rest => do
      let here ← yesNoMarketOpps min_profit_pct imbalance_threshold m
      let later ← yesNoDetect min_profit_pct imbalance_threshold rest
      return here ++ later

/-! ## Position sizing (`position_sizing.py`) -/

/-- The fields of the pydantic `Config` (`config.py`) that the sizing and
allocation code reads.  Defaults follow the `Field(default=...)` values:
`position_sizing_strategy = "kelly"`, `kelly_fraction = 0.25`,
`max_position_size = 1000.0`, `max_total_exposure = 5000.0`. -/
structure Config where
  position_sizing_strategy : String := "kelly"
  kelly_fraction : ℚ := 1/4
  max_position_size : ℚ := 1000
  max_total_exposure : ℚ := 5000
deriving DecidableEq, Repr

/-- Module-level `kelly_criterion(win_probability, win_return, loss_return)`.
Degenerate win probabilities and non-positive win returns give 0; otherwise
the classic Kelly fraction, clamped to `[0, 1]`.  The division by
`win_return` only happens on the branch where `win_return > 0`, so it cannot
raise and stays a pure `ℚ` division. -/
def kelly_criterion (win_probability win_return : ℚ) (loss_return : ℚ := -1) : ℚ :=
  if win_probability ≤ 0 ∨ 1 ≤ win_probability then 0
  else if win_return ≤ 0 then 0
  else
    let loss_probability := 1 - win_probability
    let kelly_fraction :=
      (win_probability * win_return - loss_probability * |loss_return|) / win_return
    max 0 (min 1 kelly_fraction)

/-- `PositionSizer._kelly_sizing`: profit percentage becomes the win-return
multiplier, confidence the win probability, the assumed loss is 20% of the
win return; the Kelly fraction is damped by the fixed 0.5 conservatism factor
and by `config.kelly_fraction`, then multiplied into the capital. -/
def kellySizing (config : Config) (profit_pct confidence capital : ℚ) : ℚ :=
  let win_return := profit_pct / 100
  let win_probability := confidence
  let loss_return := -win_return * (2/10)
  let kelly_f := kelly_criterion win_probability win_return loss_return
  let kelly_f := kelly_f * (5/10)
  let fractional_kelly := kelly_f * config.kelly_fraction
  capital * fractional_kelly

/-- `PositionSizer._fixed_sizing`: `min(max_position_size, capital * 0.1)`. -/
def fixedSizing (config : Config) (capital : ℚ) : ℚ :=
  min config.max_position_size (capital * (1/10))

/-- `PositionSizer._percentage_sizing`: `capital * 0.05`. -/
def percentageSizing (capital : ℚ) : ℚ :=
  capital * (5/100)

/-- `PositionSizer.calculate_position_size`: dispatch on the configured
strategy string (an unknown strategy falls back to fixed sizing), then cap
the result at `config.max_position_size`. -/
def calculate_position_size (config : Config)
    (opportunity_profit_pct opportunity_confidence available_capital : ℚ) : ℚ :=
  let size :=
    if config.position_sizing_strategy = "kelly" then
      kellySizing config opportunity_profit_pct opportunity_confidence available_capital
    else if config.position_sizing_strategy = "fixed" then
      fixedSizing config available_capital
    else if config.position_sizing_strategy = "percentage" then
      percentageSizing available_capital
    else
      fixedSizing config available_capital
  min size config.max_position_size

/-! ## Remaining opportunity dataclasses -/

/-- `CrossMarketOpportunity` dataclass (`cross_market.py`). -/
structure CrossMarketOpportunity where
  market1 : Market
  market2 : Market
  buy_market : String
  sell_market : String
  outcome : String
  buy_price : ℚ
  sell_price : ℚ
  profit_percentage : ℚ
  expected_profit : ℚ
deriving DecidableEq, Repr

/-- One leg dict of a `MultiLegOpportunity` (`multi_leg.py`): keys
`market_id`, `action`, `outcome`, `price`, `question`. -/
structure Leg where
  market_id : String
  action : String
  outcome : String
  price : ℚ
  question : String
deriving DecidableEq, Repr

/-- `MultiLegOpportunity` dataclass (`multi_leg.py`); `complexity_score` is
`len(markets)`, a list length, hence `ℕ`. -/
structure MultiLegOpportunity where
  markets : List Market
  legs : List Leg
  total_profit_percentage : ℚ
  expected_profit : ℚ
  complexity_score : ℕ
deriving DecidableEq, Repr

/-- `CorrelatedEventsOpportunity` dataclass (`correlated_events.py`). -/
structure CorrelatedEventsOpportunity where
  primary_market : Market
  correlated_market : Market
  correlation_type : String
  primary_outcome : String
  correlated_outcome : String
  implied_probability : ℚ
  actual_probability : ℚ
  mispricing : ℚ
  profit_percentage : ℚ
  expected_profit : ℚ
deriving DecidableEq, Repr

/-- `OrderBookSpreadOpportunity` dataclass (`order_book_spread.py`).
Note: it has no `profit_percentage` field. -/
structure OrderBookSpreadOpportunity where
  market : Market
  outcome : String
  bid_price : ℚ
  ask_price : ℚ
  spread_pct : ℚ
  mid_price : ℚ
  liquidity : ℚ
  expected_profit : ℚ
deriving DecidableEq, Repr

/-- `TimeBasedOpportunity` dataclass (`time_based.py`).
Note: it has no `profit_percentage` field. -/
structure TimeBasedOpportunity where
  market : Market
  outcome : String
  current_price : ℚ
  historical_avg : ℚ
  price_change_pct : ℚ
  time_to_resolution : ℚ
  volatility_score : ℚ
  opportunity_type : String
  expected_profit : ℚ
  confidence : ℚ
deriving DecidableEq, Repr

/-- The `Opportunity` union from `detector.py`: one constructor per strategy
variant (in Python a `typing.Union` dispatched by `isinstance`). -/
inductive Opportunity where
  | crossMarket (o : CrossMarketOpportunity)
  | yesNo (o : YesNoImbalanceOpportunity)
  | multiLeg (o : MultiLegOpportunity)
  | correlatedEvents (o : CorrelatedEventsOpportunity)
  | orderBookSpread (o : OrderBookSpreadOpportunity)
  | timeBased (o : TimeBasedOpportunity)
deriving DecidableEq, Repr

/-- `getattr(opportunity, "expected_profit", 0)`: every variant carries the
field, so the `getattr` default 0 is never used for it. -/
def Opportunity.expectedProfit : Opportunity → ℚ
  | .crossMarket o => o.expected_profit
  | .yesNo o => o.expected_profit
  | .multiLeg o => o.expected_profit
  | .correlatedEvents o => o.expected_profit
  | .orderBookSpread o => o.expected_profit
  | .timeBased o => o.expected_profit

/-- `getattr(opportunity, "profit_percentage", 0)`: the multi-leg variant
stores its percentage under `total_profit_percentage`, and the
order-book-spread and time-based variants have no percentage field at all,
so `getattr` yields the default 0 for those three. -/
def Opportunity.profitPercentage : Opportunity → ℚ
  | .crossMarket o => o.profit_percentage
  | .yesNo o => o.profit_percentage
  | .multiLeg _ => 0
  | .correlatedEvents o => o.profit_percentage
  | .orderBookSpread _ => 0
  | .timeBased _ => 0

/-! ## Opportunity scorer (`scorer.py`) -/

/-- `ScoredOpportunity` dataclass. -/
structure ScoredOpportunity where
  opportunity : Opportunity
  score : ℚ
  profit_score : ℚ
  capital_efficiency_score : ℚ
  confidence_score : ℚ
  risk_score : ℚ
  execution_difficulty : ℚ
deriving DecidableEq, Repr

/-- `OpportunityScorer._score_profit`: average of the capped absolute-profit
score (`min(expected_profit / 10 * 100, 100)`) and the capped percentage
score (`min(profit_pct * 10, 100)`). -/
def scoreProfit (opportunity : Opportunity) : ℚ :=
  let expected_profit := opportunity.expectedProfit
  let profit_pct := opportunity.profitPercentage
  let absolute_score := min (expected_profit / 10 * 100) 100
  let percentage_score := min (profit_pct * 10) 100
  (absolute_score + percentage_score) / 2

/-- `OpportunityScorer._estimate_capital_required`: variant-specific capital
estimate for the canonical $100 position. -/
def estimateCapitalRequired (opportunity : Opportunity) : ℚ :=
  let position_size : ℚ := 100
  match opportunity with
  | .yesNo o => (o.yes_price + o.no_price) * position_size
  | .crossMarket o => o.buy_price * position_size
  | .multiLeg o => (o.legs.map Leg.price).sum * position_size
  | .correlatedEvents o =>
      (o.implied_probability + o.actual_probability) / 2 * position_size
  | _ => position_size

/-- `OpportunityScorer._score_capital_efficiency`: ROI against the estimated
required capital, scaled by 10 and capped at 100; a zero capital estimate
short-circuits to 0 (so the Python division cannot raise). -/
def scoreCapitalEfficiency (opportunity : Opportunity) : ℚ :=
  let expected_profit := opportunity.expectedProfit
  let capital_required := estimateCapitalRequired opportunity
  if capital_required = 0 then 0
  else
    let roi := expected_profit / capital_required * 100
    min (roi * 10) 100

/-- `OpportunityScorer._score_confidence`: fixed base confidence per variant
(`isinstance` chain; 75 for the fall-through variants). -/
def scoreConfidence : Opportunity → ℚ
  | .yesNo _ => 90
  | .crossMarket _ => 80
  | .correlatedEvents _ => 70
  | .multiLeg _ => 60
  | _ => 75

/-- `OpportunityScorer._score_risk`: fixed base risk per variant, with the
multi-leg base `30 + complexity_score * 5`, capped at 100 (50 for the
fall-through variants). -/
def scoreRisk (opportunity : Opportunity) : ℚ :=
  let risk : ℚ :=
    match opportunity with
    | .yesNo _ => 10
    | .crossMarket _ => 20
    | .correlatedEvents _ => 40
    | .multiLeg o => 30 + (o.complexity_score : ℚ) * 5
    | _ => 50
  min risk 100

/-- `OpportunityScorer._score_execution_difficulty`: fixed base difficulty
per variant, with the multi-leg base `40 + complexity_score * 10`, capped at
100 (50 for the fall-through variants). -/
def scoreExecutionDifficulty (opportunity : Opportunity) : ℚ :=
  let difficulty : ℚ :=
    match opportunity with
    | .yesNo _ => 20
    | .crossMarket _ => 30
    | .correlatedEvents _ => 50
    | .multiLeg o => 40 + (o.complexity_score : ℚ) * 10
    | _ => 50
  min difficulty 100

/-- `OpportunityScorer._calculate_score`: the five sub-scores combined with
the fixed weights 0.35/0.25/0.20/0.15/0.05, risk and difficulty inverted.
The `available_capital` argument is taken but, as in the source, never read
by any sub-score. -/
def calculateScore (opportunity : Opportunity) (_available_capital : ℚ) :
    ScoredOpportunity :=
  let profit_score := scoreProfit opportunity
  let capital_efficiency := scoreCapitalEfficiency opportunity
  let confidence := scoreConfidence opportunity
  let risk := scoreRisk opportunity
  let execution_diff := scoreExecutionDifficulty opportunity
  let total_score :=
    profit_score * (35/100) +
    capital_efficiency * (25/100) +
    confidence * (20/100) +
    (100 - risk) * (15/100) +
    (100 - execution_diff) * (5/100)
  { opportunity := opportunity
    score := total_score
    profit_score := profit_score
    capital_efficiency_score := capital_efficiency
    confidence_score := confidence
    risk_score := risk
    execution_difficulty := execution_diff }

/-- `OpportunityScorer.score_opportunities`: score every opportunity in input
order, then `scored.sort(key=lambda x: x.score, reverse=True)` — a stable
descending sort by score, modelled by the stable `List.mergeSort` on the
relation "left score is at least right score". -/
def score_opportunities (opportunities : List Opportunity)
    (available_capital : ℚ) : List ScoredOpportunity :=
  let scored := opportunities.map (fun opp => calculateScore opp available_capital)
  scored.mergeSort (fun a b => decide (b.score ≤ a.score))

/-! ## Capital allocator (`position_sizing.py`, `CapitalAllocator`) -/

/-- The loop body of `CapitalAllocator.allocate_capital`: walk the scored
opportunities in order, breaking once `remaining_capital <= 0`; for each one,
size against the remaining capital (profit taken from `profit_score`,
confidence from `confidence_score / 100`), cap by
`min(remaining_capital, max_total_exposure - current_exposure)`, and record
the (index, size) pair only when the size is positive, updating the running
remaining capital and exposure. -/
def allocGo (config : Config) :
    List ScoredOpportunity → ℕ → ℚ → ℚ → List (ℕ × ℚ)
  | [], _, _, _ => []
  | scored_opp :: rest, i, remaining_capital, current_exposure =>
      if remaining_capital ≤ 0 then []
      else
        let profit_pct := scored_opp.profit_score
        let confidence := scored_opp.confidence_score / 100
        let position_size :=
          calculate_position_size config profit_pct confidence remaining_capital
        let max_allowed :=
          min remaining_capital (config.max_total_exposure - current_exposure)
        let position_size := min position_size max_allowed
        if 0 < position_size then
          (i, position_size) ::
            allocGo config rest (i + 1) (remaining_capital - position_size)
              (current_exposure + position_size)
        else
          allocGo config rest (i + 1) remaining_capital current_exposure

/-- `CapitalAllocator.allocate_capital`: the allocation dict is modelled as
the association list of (opportunity index, position size) pairs, in
insertion order.  An exposure already at or above `max_total_exposure`
returns the empty allocation immediately. -/
def allocate_capital (config : Config) (opportunities : List ScoredOpportunity)
    (total_capital current_exposure : ℚ) : List (ℕ × ℚ) :=
  if config.max_total_exposure ≤ current_exposure then []
  else allocGo config opportunities 0 (total_capital - current_exposure)
    current_exposure

/-! ## Cross-market strategy (`cross_market.py`) -/

/-- `CrossMarketStrategy._normalize_question`: lowercase, drop `?` and `!`,
strip surrounding whitespace, truncate to 50 characters. -/
def normalizeQuestion (question : String) : String :=
  (((question.toLower).replace "?" "").replace "!" "").trim.take 50

/-- `CrossMarketStrategy._check_price_difference`: no opportunity when the
sell price does not exceed the buy price; otherwise the profit percentage is
`(sell - buy) / buy * 100` (Python `/`, which raises on a zero buy price),
gated by `min_profit_pct`. -/
def checkPriceDifference (min_profit_pct : ℚ) (buy_market sell_market : Market)
    (outcome : String) (buy_price sell_price : ℚ) :
    Except PyErr (Option CrossMarketOpportunity) := do
  if sell_price ≤ buy_price then
    return none
  else
    let q ← pydiv (sell_price - buy_price) buy_price
    let profit_pct := q * 100
    if profit_pct < min_profit_pct then
      return none
    else
      return some
        { market1 := buy_market
          market2 := sell_market
          buy_market := buy_market.market_id
          sell_market := sell_market.market_id
          outcome := outcome
          buy_price := buy_price
          sell_price := sell_price
          profit_percentage := profit_pct
          expected_profit := (sell_price - buy_price) * 100 }

/-- The four checks `_find_arbitrage_in_group` runs for one pair
(market1, market2), in source order: YES forward, YES reverse, NO forward,
NO reverse; the non-`None` results are kept in that order. -/
def pairChecks (min_profit_pct : ℚ) (market1 market2 : Market) :
    Except PyErr (List CrossMarketOpportunity) := do
  let yes_opp ← checkPriceDifference min_profit_pct market1 market2 "YES"
    market1.yes_ask market2.yes_bid
  let yes_opp_reverse ← checkPriceDifference min_profit_pct market2 market1 "YES"
    market2.yes_ask market1.yes_bid
  let no_opp ← checkPriceDifference min_profit_pct market1 market2 "NO"
    market1.no_ask market2.no_bid
  let no_opp_reverse ← checkPriceDifference min_profit_pct market2 market1 "NO"
    market2.no_ask market1.no_bid
  return ([yes_opp, yes_opp_reverse, no_opp, no_opp_reverse].filterMap id)

/-- The ordered pairs `(markets[i], markets[j])` with `i < j`, as enumerated
by the nested loops of `_find_arbitrage_in_group`. -/
def offDiagPairs : List Market → List (Market × Market)
  | [] => []
  | m :: rest => rest.map (fun m2 => (m, m2)) ++ offDiagPairs rest

/-- Sequential processing of a pair list, concatenating the opportunities of
each pair in order (the accumulating loop of `_find_arbitrage_in_group`). -/
def pairsFold (min_profit_pct : ℚ) :
    List (Market × Market) → Except PyErr (List CrossMarketOpportunity)
  | [] => .ok []
  | p :: ps => do
      let here ← pairChecks min_profit_pct p.1 p.2
      let later ← pairsFold min_profit_pct ps
      return here ++ later

/-- `CrossMarketStrategy._find_arbitrage_in_group`. -/
def findArbitrageInGroup (min_profit_pct : ℚ) (markets : List Market) :
    Except PyErr (List CrossMarketOpportunity) :=
  pairsFold min_profit_pct (offDiagPairs markets)

/-- The distinct normalized-question keys of the input, in first-appearance
order — the iteration order of the Python `groups` dict built by
`_group_similar_markets`. -/
def firstKeys : List Market → List String
  | [] => []
  | m :: rest =>
      normalizeQuestion m.question ::
        (firstKeys rest).filter (fun k => k ≠ normalizeQuestion m.question)

/-- `CrossMarketStrategy._group_similar_markets`: the dict groups the input
by normalized question (each group in input order, groups in key
first-appearance order); only groups with more than one market are kept. -/
def groupSimilarMarkets (markets : List Market) : List (List Market) :=
  ((firstKeys markets).map
    (fun k => markets.filter (fun m => normalizeQuestion m.question = k))).filter
    (fun group => 1 < group.length)

/-- Sequential processing of the groups, concatenating each group's
opportunities (the loop of `CrossMarketStrategy.detect`). -/
def groupsFold (min_profit_pct : ℚ) :
    List (List Market) → Except PyErr (List CrossMarketOpportunity)
  | [] => .ok []
  | g :: gs => do
      let here ← findArbitrageInGroup min_profit_pct g
      let later ← groupsFold min_profit_pct gs
      return here ++ later

/-- `CrossMarketStrategy.detect`. -/
def crossMarketDetect (min_profit_pct : ℚ) (markets : List Market) :
    Except PyErr (List CrossMarketOpportunity) :=
  groupsFold min_profit_pct (groupSimilarMarkets markets)

/-- The comparison tuple of the re-ordering claim: (buy market id, sell
market id, outcome side, profit percentage). -/
def cmTuple (o : CrossMarketOpportunity) : String × String × String × ℚ :=
  (o.buy_market, o.sell_market, o.outcome, o.profit_percentage)

/-- A cross-market opportunity list viewed as an unordered multiset of
comparison tuples. -/
def tupleMultiset (opps : List CrossMarketOpportunity) :
    Multiset (String × String × String × ℚ) :=
  (opps.map cmTuple : Multiset _)

/-- The cross-market output viewed as an unordered multiset of comparison
tuples (or the uncaught exception, when one is raised). -/
def crossMarketTuples (min_profit_pct : ℚ) (markets : List Market) :
    Except PyErr (Multiset (String × String × String × ℚ)) :=
  (crossMarketDetect min_profit_pct markets).map tupleMultiset

/-! ## Multi-leg strategy (`multi_leg.py`) -/

/-- The synthetic leg list `MultiLegStrategy._check_chain` builds: even
positions buy YES at `yes_ask`, odd positions buy NO at `no_ask`.  The
source also computes a `total_expected_return` local it never uses; it is
omitted here. -/
def chainLegs (markets : List Market) : List Leg :=
  markets.enum.map (fun im =>
    if im.1 % 2 = 0 then
      { market_id := im.2.market_id
        action := "buy"
        outcome := "YES"
        price := im.2.yes_ask
        question := im.2.question.take 50 : Leg }
    else
      { market_id := im.2.market_id
        action := "buy"
        outcome := "NO"
        price := im.2.no_ask
        question := im.2.question.take 50 : Leg })

/-- `MultiLegStrategy._check_chain` continued: sum the leg prices, and emit
when `(len(markets) - total_cost) / total_cost * 100` clears
`min_profit_pct`; a non-positive total cost makes the percentage 0 by the
source's explicit `if total_cost > 0 else 0` guard (so this division cannot
raise). -/
def checkChain (min_profit_pct : ℚ) (markets : List Market) :
    Option MultiLegOpportunity :=
  let legs := chainLegs markets
  let total_cost := (legs.map Leg.price).sum
  let potential_return : ℚ := markets.length
  let profit := potential_return - total_cost
  let profit_pct := if 0 < total_cost then profit / total_cost * 100 else 0
  if min_profit_pct ≤ profit_pct then
    some { markets := markets
           legs := legs
           total_profit_percentage := profit_pct
           expected_profit := profit * 100
           complexity_score := markets.length }
  else
    none

/-- The distinct categories of the input, in first-appearance order (the
iteration order of the `groups` dict of
`MultiLegStrategy._group_related_markets`). -/
def firstCategories : List Market → List String
  | [] => []
  | m :: rest => m.category :: (firstCategories rest).filter (fun c => c ≠ m.category)

/-- `MultiLegStrategy._group_related_markets`: group by category, keep groups
of at least three markets. -/
def groupRelatedMarkets (markets : List Market) : List (List Market) :=
  ((firstCategories markets).map
    (fun c => markets.filter (fun m => m.category = c))).filter
    (fun group => 3 ≤ group.length)

/-- `MultiLegStrategy._find_chains_in_group`: try every combination of
`3 .. min(len(markets), max_legs)` markets (order inside a combination
follows the group order, as with `itertools.combinations`; the enumeration
order of combinations, which no claim concerns, may differ). -/
def findChainsInGroup (min_profit_pct : ℚ) (max_legs : ℕ)
    (markets : List Market) : List MultiLegOpportunity :=
  (((List.range (min (markets.length + 1) (max_legs + 1))).drop 3).flatMap
    (fun num_markets => List.sublistsLen num_markets markets)).filterMap
    (fun combo => checkChain min_profit_pct combo)

/-- `MultiLegStrategy.detect` (the `len(group) >= 3` re-check of the loop is
subsumed by the grouping filter). -/
def multiLegDetect (min_profit_pct : ℚ) (max_legs : ℕ)
    (markets : List Market) : List MultiLegOpportunity :=
  (groupRelatedMarkets markets).flatMap (findChainsInGroup min_profit_pct max_legs)

/-! ## Time-based strategy (`time_based.py`)

The strategy keeps a rolling per-market price history; Python timestamps are
seconds since the epoch (`ℚ` here).  The only operation of this matcher with
no exact rational counterpart is the float square root `variance ** 0.5` in
`_analyze_outcome`; the embedding takes the square-root function as an
explicit parameter `sqrtF` and every theorem about this matcher holds for
every choice of `sqrtF`. -/

/-- Constructor parameters of `TimeBasedStrategy`, with its defaults. -/
structure TimeBasedParams where
  min_profit_pct : ℚ := 6/10
  time_window_hours : ℚ := 24
  volatility_threshold : ℚ := 2
deriving DecidableEq, Repr

/-- The `_price_history` dict: market id to list of
(timestamp, yes_price, no_price) samples, as an association list. -/
abbrev TBState := List (String × List (ℚ × ℚ × ℚ))

/-- Store a history list under a market id: overwrite the existing entry, or
append a new one (dict item assignment). -/
def TBState.set (st : TBState) (k : String) (v : List (ℚ × ℚ × ℚ)) : TBState :=
  if (List.lookup k st).isSome then
    st.map (fun e => if e.1 = k then (k, v) else e)
  else
    st ++ [(k, v)]

/-- `TimeBasedStrategy._update_price_history`: append the current sample and
drop samples older than 24 hours. -/
def updatePriceHistory (st : TBState) (market : Market) (timestamp : ℚ) :
    TBState :=
  let hist := (List.lookup market.market_id st).getD []
  let hist := hist ++ [(timestamp, market.yes_price, market.no_price)]
  let cutoff := timestamp - 24 * 3600
  TBState.set st market.market_id (hist.filter (fun e => cutoff ≤ e.1))

/-- The pattern-classification if/elif chain of
`TimeBasedStrategy._analyze_outcome`: the three priority-ordered patterns
(panic selling, last-minute mispricing, volatility spike) with their capped
confidences, or `none` when no pattern matches. -/
def classifyPattern (params : TimeBasedParams)
    (price_change_pct time_to_resolution volatility_score : ℚ) :
    Option (String × ℚ) :=
  if price_change_pct < -5 ∧ time_to_resolution < 12 ∧
      params.volatility_threshold < volatility_score then
    some ("panic_selling", min (85/100) (65/100 + |price_change_pct| / 100))
  else if 10 < |price_change_pct| ∧ time_to_resolution < 6 ∧
      params.volatility_threshold * (15/10) < volatility_score then
    some ("last_minute_mispricing",
      min (90/100) (70/100 + |price_change_pct| / 200))
  else if params.volatility_threshold * 2 < volatility_score ∧
      8 < |price_change_pct| then
    some ("volatility_spike", min (80/100) (60/100 + volatility_score / 20))
  else
    none

/-- `TimeBasedStrategy._analyze_outcome` for one outcome side of one market:
needs at least 3 history samples and at least 3 strictly positive prices for
the side; computes the historical mean, the percentage change against it,
the population variance and (via `sqrtF`) the standard deviation, and the
volatility score (`std_dev / mean`, 0 unless the mean is positive);
classifies via `classifyPattern`; then estimates the reversion profit
(dividing by `current_price`, which raises when that price is zero) and
applies the minimum-profit bound. -/
def analyzeOutcome (sqrtF : ℚ → ℚ) (params : TimeBasedParams) (st : TBState)
    (market : Market) (outcome : String)
    (current_price time_to_resolution : ℚ) :
    Except PyErr (Option TimeBasedOpportunity) := do
  match List.lookup market.market_id st with
  | none => return none
  | some hist =>
    if hist.length < 3 then
      return none
    else
      let prices := (hist.map
        (fun e => if outcome = "YES" then e.2.1 else e.2.2)).filter
        (fun p => 0 < p)
      if prices.length < 3 then
        return none
      else
        let historical_avg ← pydiv prices.sum (prices.length : ℚ)
        let q1 ← pydiv (current_price - historical_avg) historical_avg
        let price_change_pct := q1 * 100
        let variance ← pydiv
          ((prices.map (fun p => (p - historical_avg) ^ 2)).sum)
          (prices.length : ℚ)
        let std_dev := sqrtF variance
        let volatility_score :=
          if 0 < historical_avg then std_dev / historical_avg else 0
        let pattern : Option (String × ℚ) :=
          classifyPattern params price_change_pct time_to_resolution
            volatility_score
        match pattern with
        | none => return none
        | some (opportunity_type, confidence) => do
          let q2 ← pydiv (historical_avg - current_price) current_price
          let price_reversion_pct := q2 * 100
          let position_size : ℚ := 100
          let expected_profit := position_size * (|price_reversion_pct| / 100)
          if expected_profit < position_size * params.min_profit_pct / 100 then
            return none
          else
            return some
              { market := market
                outcome := outcome
                current_price := current_price
                historical_avg := historical_avg
                price_change_pct := price_change_pct
                time_to_resolution := time_to_resolution
                volatility_score := volatility_score
                opportunity_type := opportunity_type
                expected_profit := expected_profit
                confidence := confidence }

/-- `TimeBasedStrategy.detect`: `now` (the single `datetime.now()` of the
call) is an explicit argument; a market whose time to resolution exceeds
`time_window_hours` or is negative is skipped before any history update or
analysis; otherwise its history is updated and both outcome sides analyzed.
Returns the final history state together with the opportunities. -/
def timeBasedDetect (sqrtF : ℚ → ℚ) (params : TimeBasedParams) (st : TBState)
    (now : ℚ) : List Market → Except PyErr (TBState × List TimeBasedOpportunity)
  | [] => .ok (st, [])
  | market :: rest =>
      let time_to_resolution := (market.end_date - now) / 3600
      if params.time_window_hours < time_to_resolution ∨ time_to_resolution < 0 then
        timeBasedDetect sqrtF params st now rest
      else do
        let st1 := updatePriceHistory st market now
        let yes_opp ← analyzeOutcome sqrtF params st1 market "YES"
          market.yes_price time_to_resolution
        let no_opp ← analyzeOutcome sqrtF params st1 market "NO"
          market.no_price time_to_resolution
        let (st2, opps) ← timeBasedDetect sqrtF params st1 now rest
        return (st2, yes_opp.toList ++ no_opp.toList ++ opps)

/-! ## Concrete sample values used by witnesses and counterexamples -/

/-- A sample market builder for concrete inputs. -/
def mkMarket (id q cat : String) (ed ya na yb nb yp np : ℚ) : Market :=
  { market_id := id, question := q, description := "", category := cat,
    end_date := ed, status := .active, yes_price := yp, no_price := np,
    yes_bid := yb, yes_ask := ya, no_bid := nb, no_ask := na,
    volume_24h := 0, liquidity := 0 }

/-- A balanced-looking sample market (the spec's end-to-end scenario prices:
asks 0.48/0.48, bids 0.45/0.45). -/
def sampleMarket : Market := mkMarket "m1" "q1" "c" 0 (48/100) (48/100) (45/100) (45/100) 0 0

/-- A snapshot whose prices are all zero (missing prices). -/
def zeroMarket : Market := mkMarket "mz" "q1" "c" 0 0 0 0 0 0 0

/-- A scored opportunity with all-zero scores, wrapping a cross-market
opportunity. -/
def sampleScored : ScoredOpportunity :=
  { opportunity := .crossMarket
      { market1 := sampleMarket, market2 := sampleMarket, buy_market := "m1",
        sell_market := "m1", outcome := "YES", buy_price := 1/2,
        sell_price := 1/2, profit_percentage := 0, expected_profit := 0 }
    score := 0, profit_score := 0, capital_efficiency_score := 0,
    confidence_score := 0, risk_score := 0, execution_difficulty := 0 }

/-- A cross-market opportunity record with negative profit figures. -/
def negProfitOpp : Opportunity := .crossMarket
  { market1 := sampleMarket, market2 := sampleMarket, buy_market := "m1",
    sell_market := "m1", outcome := "YES", buy_price := 1/2,
    sell_price := 1/4, profit_percentage := -10, expected_profit := -100 }

/-- A YES/NO-imbalance opportunity record with nonnegative profit figures. -/
def posOpp : Opportunity := .yesNo
  { market := sampleMarket, yes_price := 48/100, no_price := 48/100,
    price_sum := 96/100, imbalance := 4/100, profit_percentage := 25/6,
    expected_profit := 4, action := "buy_both" }

/-- Three same-category markets; the first has a zero `yes_ask` (the
even-index leg price), the others have positive leg prices. -/
def cxA : Market := mkMarket "a" "qa" "cat" 0 0 (1/2) 0 0 0 0

/-- Second market of the zero-leg combination (odd index, `no_ask` 0.5). -/
def cxB : Market := mkMarket "b" "qb" "cat" 0 (3/10) (1/2) 0 0 0 0

/-- Third market of the zero-leg combination (even index, `yes_ask` 0.4). -/
def cxC : Market := mkMarket "c" "qc" "cat" 0 (4/10) (1/2) 0 0 0 0

/-- A market with a zero YES ask, sharing a normalized question with
`zqB`. -/
def zqA : Market := mkMarket "A" "Will Y?" "c" 0 0 (99/100) 0 0 0 0

/-- A market whose YES bid is positive, sharing a normalized question with
`zqA`. -/
def zqB : Market := mkMarket "B" "Will Y!" "c" 0 (72/100) (99/100) (68/100) 0 0 0

/-- Two same-question markets with a genuine YES price gap (the spec's
cross-market end-to-end scenario). -/
def xmA : Market := mkMarket "A" "Will X?" "c" 0 (62/100) (99/100) (58/100) 0 0 0

/-- The second market of the cross-market scenario pair. -/
def xmB : Market := mkMarket "B" "Will X!" "c" 0 (72/100) (99/100) (68/100) 0 0 0

/-- A market resolving 100 hours after time 0 — far outside the default
24-hour window of the time-based strategy. -/
def farMarket : Market :=
  mkMarket "f" "q" "c" 360000 (1/2) (1/2) (1/2) (1/2) (1/2) (1/2)

/-! ## Proof infrastructure for the cross-market re-ordering claim -/

/-- The comparison-tuple type of the cross-market re-ordering claim. -/
abbrev CMTup := String × String × String × ℚ

/-- Combine two exception-or-multiset outcomes the way sequential processing
does: the first exception wins, otherwise the multisets add. -/
def addE (x y : Except PyErr (Multiset CMTup)) : Except PyErr (Multiset CMTup) := do
  let a ← x
  let b ← y
  return a + b

/-- Fold `addE` of a per-key outcome over a key list. -/
def foldTup (f : String → Except PyErr (Multiset CMTup)) :
    List String → Except PyErr (Multiset CMTup)
  | [] => .ok 0
  | k :: ks => addE (f k) (foldTup f ks)

/-- The tuple multiset of one optional check result. -/
def optT : Option CrossMarketOpportunity → Multiset CMTup
  | none => 0
  | some o => {cmTuple o}

/-! ## C1 — allocator position-size caps -/

/-- The size `calculate_position_size` returns never exceeds
`max_position_size` (it is the `min` with it). -/
theorem calculate_position_size_le_max (config : Config)
    (profit confidence capital : ℚ) :
    calculate_position_size config profit confidence capital ≤
      config.max_position_size := by
  unfold calculate_position_size
  exact min_le_right _ _

/-- C1: for every list of scored opportunities, every capital, every exposure
and every configuration, each position size the capital allocator assigns is
at most `max_position_size` and at most `max_total_exposure` minus the
current exposure at the moment of that assignment — including for adversarial
inputs (negative profit score, zero confidence, zero capital).  The first
conjunct states this for `allocGo`, the allocation loop, quantified over an
arbitrary loop state; since each recursive call's `current_exposure` argument
is exactly the exposure at that moment, this covers every assignment moment.
The second conjunct specializes to the `allocate_capital` entry point. -/
theorem allocator_caps (config : Config)
    (opportunities : List ScoredOpportunity) (i : ℕ)
    (remaining_capital current_exposure total_capital : ℚ) (p : ℕ × ℚ) :
    (p ∈ allocGo config opportunities i remaining_capital current_exposure →
      p.2 ≤ config.max_position_size ∧
        p.2 ≤ config.max_total_exposure - current_exposure) ∧
    (p ∈ allocate_capital config opportunities total_capital current_exposure →
      p.2 ≤ config.max_position_size ∧
        p.2 ≤ config.max_total_exposure - current_exposure) := by
  have main : ∀ (opps : List ScoredOpportunity) (j : ℕ) (rem exp : ℚ),
      p ∈ allocGo config opps j rem exp →
        p.2 ≤ config.max_position_size ∧
          p.2 ≤ config.max_total_exposure - exp := by
    intro opps
    induction opps with
    | nil => intro j rem exp hp; simp [allocGo] at hp
    | cons o rest ih =>
      intro j rem exp hp
      rw [allocGo] at hp
      by_cases h1 : rem ≤ 0
      · simp [h1] at hp
      · rw [if_neg h1] at hp
        by_cases h2 : 0 <
            min (calculate_position_size config o.profit_score
              (o.confidence_score / 100) rem)
              (min rem (config.max_total_exposure - exp))
        · rw [if_pos h2] at hp
          rcases List.mem_cons.mp hp with h | h
          · subst h
            constructor
            · exact le_trans (le_trans (min_le_left _ _)
                (calculate_position_size_le_max config _ _ _))
                (le_refl _)
            · exact le_trans (min_le_right _ _) (min_le_right _ _)
          · obtain ⟨hA, hB⟩ := ih _ _ _ h
            refine ⟨hA, le_trans hB ?_⟩
            have : 0 < min (calculate_position_size config o.profit_score
                (o.confidence_score / 100) rem)
                (min rem (config.max_total_exposure - exp)) := h2
            linarith
        · rw [if_neg h2] at hp
          exact ih _ _ _ hp
  refine ⟨main opportunities i remaining_capital current_exposure, ?_⟩
  intro hp
  unfold allocate_capital at hp
  by_cases h : config.max_total_exposure ≤ current_exposure
  · simp [h] at hp
  · rw [if_neg h] at hp
    exact main _ _ _ _ hp

/-- Witness for C1: a concrete fixed-sizing run assigns the pair `(0, 100)`,
and the theorem bounds it by the $1000 per-trade cap and the $5000 exposure
headroom. -/
theorem allocator_caps_witness :
    ((0, (100 : ℚ)) ∈ allocate_capital { position_sizing_strategy := "fixed" }
      [sampleScored] 1000 0) ∧
    ((100 : ℚ) ≤ (1000 : ℚ) ∧
      (100 : ℚ) ≤ (5000 : ℚ) - 0) := by
  have heval : allocate_capital { position_sizing_strategy := "fixed" }
      [sampleScored] 1000 0 = [(0, 100)] := by
    simp [allocate_capital, allocGo, calculate_position_size, fixedSizing,
      sampleScored]
    norm_num
  have hmem : (0, (100 : ℚ)) ∈ allocate_capital
      { position_sizing_strategy := "fixed" } [sampleScored] 1000 0 := by
    rw [heval]
    exact List.mem_singleton.mpr rfl
  have := (allocator_caps { position_sizing_strategy := "fixed" }
    [sampleScored] 0 1000 0 1000 (0, 100)).2 hmem
  exact ⟨hmem, this⟩

/-! ## C4 — degenerate sizing inputs -/

/-- A non-positive win return short-circuits `kelly_criterion` to 0. -/
theorem kelly_criterion_of_nonpos_return (win_probability win_return loss_return : ℚ)
    (h : win_return ≤ 0) :
    kelly_criterion win_probability win_return loss_return = 0 := by
  unfold kelly_criterion
  by_cases h1 : win_probability ≤ 0 ∨ 1 ≤ win_probability
  · rw [if_pos h1]
  · rw [if_neg h1, if_pos h]

/-- C4 counterexample: the claim fails as stated.  Under the `fixed` policy
with $10000 of capital and a negative profit percentage of −5%, the sizer
returns $1000, not 0 (the fixed and percentage policies never read the
profit percentage at all). -/
theorem sizer_degenerate_counterexample :
    calculate_position_size { position_sizing_strategy := "fixed" }
      (-5) (8/10) 10000 = 1000 ∧ (1000 : ℚ) ≠ 0 := by
  constructor
  · simp [calculate_position_size, fixedSizing]
    norm_num
  · norm_num

/-- C4 amended: with a nonnegative `max_position_size`, (a) the `kelly`
policy returns a size of exactly 0 whenever the opportunity profit
percentage is zero or negative, for every capital; and (b) every policy
returns exactly 0 when the available capital is zero.  (As the
counterexample shows, the fixed and percentage policies ignore the profit
percentage, and a strictly negative capital can produce negative sizes, so
the original claim holds only in this weakened form.) -/
theorem sizer_degenerate_amended (config : Config)
    (profit confidence capital : ℚ) (hmps : 0 ≤ config.max_position_size) :
    (config.position_sizing_strategy = "kelly" → profit ≤ 0 →
      calculate_position_size config profit confidence capital = 0) ∧
    calculate_position_size config profit confidence 0 = 0 := by
  constructor
  · intro hk hp
    have hw : profit / 100 ≤ 0 :=
      div_nonpos_of_nonpos_of_nonneg hp (by norm_num)
    have hkelly : kellySizing config profit confidence capital = 0 := by
      simp only [kellySizing]
      rw [kelly_criterion_of_nonpos_return _ _ _ hw]
      ring
    simp only [calculate_position_size, if_pos hk, hkelly]
    simp [hmps]
  · have hkelly : kellySizing config profit confidence 0 = 0 := by
      simp only [kellySizing]
      ring
    have hfixed : fixedSizing config 0 = 0 := by
      simp only [fixedSizing]
      simp [hmps]
    have hpct : percentageSizing 0 = 0 := by
      simp only [percentageSizing]
      ring
    simp only [calculate_position_size]
    split_ifs <;> simp [hkelly, hfixed, hpct, hmps]

/-- Witness for C4's amended claim: the default (kelly) configuration with
profit −5% and $10000 capital sizes to exactly 0, and the percentage policy
with zero capital sizes to exactly 0. -/
theorem sizer_degenerate_amended_witness :
    calculate_position_size {} (-5) (8/10) 10000 = 0 ∧
    calculate_position_size { position_sizing_strategy := "percentage" }
      5 (8/10) 0 = 0 := by
  constructor
  · exact (sizer_degenerate_amended {} (-5) (8/10) 10000 (by norm_num)).1
      rfl (by norm_num)
  · exact (sizer_degenerate_amended
      { position_sizing_strategy := "percentage" } 5 (8/10) 0 (by norm_num)).2

/-! ## C8 — fractional-Kelly monotonicity -/

/-- `kelly_criterion` is always nonnegative (0 on the degenerate branches,
otherwise clamped below by `max 0`). -/
theorem kelly_criterion_nonneg (win_probability win_return loss_return : ℚ) :
    0 ≤ kelly_criterion win_probability win_return loss_return := by
  unfold kelly_criterion
  split_ifs
  · exact le_refl 0
  · exact le_refl 0
  · exact le_max_left 0 _

/-- C8 counterexample: the claim fails as stated.  With a strictly negative
available capital (−$1000), profit 10% and confidence 0.5, full Kelly
(`kelly_fraction = 1`) sizes to −$200, strictly below quarter Kelly's −$50. -/
theorem kelly_fraction_monotone_counterexample :
    kellySizing { kelly_fraction := 1 } 10 (1/2) (-1000) <
      kellySizing { kelly_fraction := 1/4 } 10 (1/2) (-1000) := by
  have h : kelly_criterion (1/2 : ℚ) (10/100) (-(10/100) * (2/10)) = 2/5 := by
    unfold kelly_criterion
    norm_num
    rw [show |(1:ℚ)/50| = 1/50 from abs_of_nonneg (by norm_num)]
    norm_num [min_def, max_def]
  simp only [kellySizing, h]
  norm_num

/-- C8 amended: for every nonnegative available capital (and any profit
percentage, confidence and otherwise-identical configuration), the Kelly
position size with `kelly_fraction = 1.0` is at least the one with
`kelly_fraction = 0.25`, both for the raw `_kelly_sizing` computation and
for the capped `calculate_position_size` under the kelly policy.  (The
counterexample shows the unrestricted claim fails for negative capital.) -/
theorem kelly_fraction_monotone_amended (config : Config)
    (profit confidence capital : ℚ) (hcap : 0 ≤ capital) :
    kellySizing { config with kelly_fraction := 1/4 } profit confidence capital ≤
      kellySizing { config with kelly_fraction := 1 } profit confidence capital ∧
    calculate_position_size
        { config with position_sizing_strategy := "kelly", kelly_fraction := 1/4 }
        profit confidence capital ≤
      calculate_position_size
        { config with position_sizing_strategy := "kelly", kelly_fraction := 1 }
        profit confidence capital := by
  have hk : 0 ≤ kelly_criterion confidence (profit / 100)
      (-(profit / 100) * (2/10)) := kelly_criterion_nonneg _ _ _
  have hmain : ∀ c1 c2 : Config, c1.kelly_fraction = 1/4 → c2.kelly_fraction = 1 →
      kellySizing c1 profit confidence capital ≤
        kellySizing c2 profit confidence capital := by
    intro c1 c2 h1 h2
    simp only [kellySizing, h1, h2]
    have hinner : kelly_criterion confidence (profit / 100)
        (-(profit / 100) * (2/10)) * (5/10) * (1/4) ≤
        kelly_criterion confidence (profit / 100)
          (-(profit / 100) * (2/10)) * (5/10) * 1 := by
      nlinarith
    exact mul_le_mul_of_nonneg_left hinner hcap
  refine ⟨hmain _ _ rfl rfl, ?_⟩
  simp only [calculate_position_size, if_pos rfl]
  exact min_le_min (hmain _ _ rfl rfl) (le_refl _)

/-- Witness for C8's amended claim: with $1000 of capital, profit 10% and
confidence 0.5, quarter Kelly sizes below full Kelly. -/
theorem kelly_fraction_monotone_witness :
    kellySizing { kelly_fraction := 1/4 } 10 (1/2) 1000 ≤
      kellySizing { kelly_fraction := 1 } 10 (1/2) 1000 :=
  ((kelly_fraction_monotone_amended {} 10 (1/2) 1000 (by norm_num)).1)

/-! ## C7 — scorer sub-score bounds -/

/-- C7 counterexample: the claim fails as stated.  For an opportunity with
expected profit −$100 and profit percentage −10%, the profit sub-score is
−550, far outside [0, 100] (the `min ... 100` caps bound the sub-score above
but not below). -/
theorem scorer_subscore_counterexample :
    scoreProfit negProfitOpp = -550 ∧ ¬ (0 ≤ scoreProfit negProfitOpp) := by
  have h : scoreProfit negProfitOpp = -550 := by
    simp only [scoreProfit, negProfitOpp, Opportunity.expectedProfit,
      Opportunity.profitPercentage]
    norm_num [min_def]
  exact ⟨h, by rw [h]; norm_num⟩

/-- C7 amended: the confidence, risk and execution-difficulty sub-scores lie
in [0, 100] for every opportunity; the profit and capital-efficiency
sub-scores are bounded above by 100 for every opportunity, and lie in
[0, 100] provided the opportunity's expected profit, profit percentage and
(for capital efficiency) estimated required capital are nonnegative.  (The
counterexample shows the lower bound fails for negative profit figures.) -/
theorem scorer_subscore_bounds_amended (opp : Opportunity) :
    (0 ≤ scoreConfidence opp ∧ scoreConfidence opp ≤ 100) ∧
    (0 ≤ scoreRisk opp ∧ scoreRisk opp ≤ 100) ∧
    (0 ≤ scoreExecutionDifficulty opp ∧ scoreExecutionDifficulty opp ≤ 100) ∧
    scoreProfit opp ≤ 100 ∧
    scoreCapitalEfficiency opp ≤ 100 ∧
    (0 ≤ opp.expectedProfit → 0 ≤ opp.profitPercentage →
      0 ≤ scoreProfit opp) ∧
    (0 ≤ opp.expectedProfit → 0 ≤ estimateCapitalRequired opp →
      0 ≤ scoreCapitalEfficiency opp) := by
  refine ⟨?_, ?_, ?_, ?_, ?_, ?_, ?_⟩
  · cases opp <;> simp [scoreConfidence] <;> norm_num
  · refine ⟨?_, ?_⟩
    · rcases opp with o|o|o|o|o|o <;> simp only [scoreRisk] <;>
        exact le_min (by positivity) (by norm_num)
    · rcases opp with o|o|o|o|o|o <;> simp only [scoreRisk] <;>
        exact min_le_right _ _
  · refine ⟨?_, ?_⟩
    · rcases opp with o|o|o|o|o|o <;> simp only [scoreExecutionDifficulty] <;>
        exact le_min (by positivity) (by norm_num)
    · rcases opp with o|o|o|o|o|o <;> simp only [scoreExecutionDifficulty] <;>
        exact min_le_right _ _
  · simp only [scoreProfit]
    have h1 := min_le_right (opp.expectedProfit / 10 * 100) (100 : ℚ)
    have h2 := min_le_right (opp.profitPercentage * 10) (100 : ℚ)
    linarith
  · simp only [scoreCapitalEfficiency]
    split_ifs
    · norm_num
    · exact min_le_right _ _
  · intro hep hpp
    simp only [scoreProfit]
    have h1 : (0:ℚ) ≤ min (opp.expectedProfit / 10 * 100) 100 :=
      le_min (by positivity) (by norm_num)
    have h2 : (0:ℚ) ≤ min (opp.profitPercentage * 10) 100 :=
      le_min (by positivity) (by norm_num)
    linarith
  · intro hep hcr
    simp only [scoreCapitalEfficiency]
    split_ifs with h
    · exact le_refl 0
    · have hpos : 0 < estimateCapitalRequired opp := lt_of_le_of_ne hcr (Ne.symm h)
      have : (0:ℚ) ≤ opp.expectedProfit / estimateCapitalRequired opp * 100 := by
        positivity
      exact le_min (by positivity) (by norm_num)

/-- Witness for C7's amended claim: the sample positive YES/NO opportunity
(expected profit $4, profit 25/6 %) has nonnegative profit and
capital-efficiency sub-scores. -/
theorem scorer_subscore_bounds_witness :
    0 ≤ scoreProfit posOpp ∧ 0 ≤ scoreCapitalEfficiency posOpp := by
  have h := scorer_subscore_bounds_amended posOpp
  refine ⟨h.2.2.2.2.2.1 ?_ ?_, h.2.2.2.2.2.2 ?_ ?_⟩
  · norm_num [posOpp, Opportunity.expectedProfit]
  · norm_num [posOpp, Opportunity.profitPercentage]
  · norm_num [posOpp, Opportunity.expectedProfit]
  · norm_num [posOpp, estimateCapitalRequired]

/-! ## C10 — scorer produces exactly one scored entry per opportunity -/

/-- C10: for every opportunity list and capital, `score_opportunities`
returns a permutation of the list obtained by scoring each input in place —
so exactly one `ScoredOpportunity` per input, nothing dropped, filtered or
duplicated (the sort only re-orders) — its length equals the input length,
and before sorting the i-th scored entry wraps exactly the i-th input
opportunity. -/
theorem scorer_one_to_one (opportunities : List Opportunity)
    (available_capital : ℚ) :
    (score_opportunities opportunities available_capital).Perm
      (opportunities.map (fun opp => calculateScore opp available_capital)) ∧
    (score_opportunities opportunities available_capital).length =
      opportunities.length ∧
    ∀ i : ℕ,
      ((opportunities.map (fun opp => calculateScore opp available_capital))[i]?.map
        ScoredOpportunity.opportunity) = opportunities[i]? := by
  have hperm : (score_opportunities opportunities available_capital).Perm
      (opportunities.map (fun opp => calculateScore opp available_capital)) :=
    List.mergeSort_perm _ _
  refine ⟨hperm, ?_, ?_⟩
  · rw [hperm.length_eq, List.length_map]
  · intro i
    rw [List.getElem?_map, Option.map_map]
    have : (ScoredOpportunity.opportunity ∘
        fun opp => calculateScore opp available_capital) = id := by
      funext opp
      simp [calculateScore]
    rw [this, Option.map_id]
    rfl

/-! ## C5 — multi-leg combinations with non-positive leg prices -/

/-- C5 counterexample: the claim fails as stated.  `_check_chain` has no
per-leg price guard: in the combination `[cxA, cxB, cxC]`, the even-indexed
leg on `cxA` is priced at its `yes_ask` of 0 — non-positive — yet the total
cost is 0.9 > 0 and the chain still emits an opportunity (profit ≈ 233%). -/
theorem multileg_nonpositive_leg_counterexample :
    cxA.yes_ask ≤ 0 ∧ checkChain 1 [cxA, cxB, cxC] ≠ none := by
  constructor
  · norm_num [cxA, mkMarket]
  · simp only [checkChain, chainLegs, cxA, cxB, cxC, mkMarket, List.enum,
      List.enumFrom, List.map]
    norm_num
    exact Option.some_ne_none _

/-- C5 amended: a combination is voided only when the TOTAL leg cost is
non-positive: with any positive `min_profit_pct`, a combination whose leg
prices sum to at most zero emits no opportunity (the source defines the
profit percentage as 0 in that case).  An individual non-positive leg ask
inside a combination of positive total cost does not void it, as the
counterexample shows. -/
theorem multileg_nonpositive_cost_amended (min_profit_pct : ℚ)
    (markets : List Market) (hmin : 0 < min_profit_pct)
    (hcost : ((chainLegs markets).map Leg.price).sum ≤ 0) :
    checkChain min_profit_pct markets = none := by
  simp only [checkChain]
  rw [if_neg (not_lt.mpr hcost), if_neg (not_le.mpr hmin)]

/-- Witness for C5's amended claim: three all-zero-price markets have total
leg cost 0, so the chain check emits nothing at the default multi-leg
minimum profit of 1%. -/
theorem multileg_nonpositive_cost_witness :
    checkChain 1 [zeroMarket, zeroMarket, zeroMarket] = none := by
  apply multileg_nonpositive_cost_amended
  · norm_num
  · simp only [chainLegs, zeroMarket, mkMarket, List.enum, List.enumFrom,
      List.map]
    norm_num

/-! ## C2 — YES/NO buy_both emission -/

/-- C2 counterexample: the claim fails as stated.  A snapshot with
`yes_ask = no_ask = 0` satisfies `yes_ask + no_ask < 1 - imbalance_threshold`
(0 < 0.98), yet the matcher emits no `buy_both` opportunity at all: the
profit-percentage division `imbalance / buy_sum` raises `ZeroDivisionError`
instead. -/
theorem yesno_buy_both_zero_sum_counterexample :
    zeroMarket.yes_ask + zeroMarket.no_ask < 1 - 1/50 ∧
    yesNoDetect (1/2) (1/50) [zeroMarket] = .error .zeroDivision := by
  constructor
  · norm_num [zeroMarket, mkMarket]
  · simp [yesNoDetect, yesNoMarketOpps, pydiv, zeroMarket, mkMarket, bind,
      Except.instMonad, Except.bind, pure, Except.pure]
    norm_num

/-- C2 amended: under the default parameters (`min_profit_pct = 0.5`,
`imbalance_threshold = 0.02`), every snapshot with a POSITIVE price sum
`0 < yes_ask + no_ask < 1 - imbalance_threshold` yields exactly one
`buy_both` opportunity, whose `imbalance` equals `1 - (yes_ask + no_ask)`
exactly (no floating tolerance is needed over exact rationals).  The
positivity condition is what the counterexample forces: with a zero sum the
call raises instead, and with a negative sum the profit gate rejects.  The
per-market opportunities of the detect loop are exactly
`yesNoMarketOpps`. -/
theorem yesno_buy_both_amended (m : Market)
    (h0 : 0 < m.yes_ask + m.no_ask)
    (h1 : m.yes_ask + m.no_ask < 1 - 1/50) :
    ∃ l, yesNoMarketOpps (1/2) (1/50) m = .ok l ∧
      (l.filter (fun o => o.action == "buy_both")).map
        (fun o => o.imbalance) = [1 - (m.yes_ask + m.no_ask)] := by
  have hs : m.yes_ask + m.no_ask ≠ 0 := ne_of_gt h0
  have hc1 : (1:ℚ)/50 < 1 - (m.yes_ask + m.no_ask) := by linarith
  have hgate : (1:ℚ)/2 ≤
      (1 - (m.yes_ask + m.no_ask)) / (m.yes_ask + m.no_ask) * 100 := by
    rw [div_mul_eq_mul_div, le_div_iff₀ h0]
    nlinarith
  simp only [yesNoMarketOpps, pydiv, if_neg hs, if_pos hc1, bind,
    Except.instMonad, Except.bind, pure, Except.pure]
  rw [if_pos hgate]
  by_cases h2 : (1:ℚ)/50 < m.yes_bid + m.no_bid - 1
  · rw [if_pos h2, if_neg (by norm_num : ¬ (1:ℚ) = 0)]
    simp only [Except.bind]
    by_cases h3 : (1:ℚ)/2 ≤ (m.yes_bid + m.no_bid - 1) / 1 * 100
    · rw [if_pos h3]
      refine ⟨_, rfl, ?_⟩
      simp
    · rw [if_neg h3]
      refine ⟨_, rfl, ?_⟩
      simp
  · rw [if_neg h2]
    refine ⟨_, rfl, ?_⟩
    simp

/-- Witness for C2's amended claim: the 0.48/0.48 sample market emits
exactly one buy_both opportunity with imbalance `1 - 0.96 = 0.04`. -/
theorem yesno_buy_both_witness :
    ∃ l, yesNoMarketOpps (1/2) (1/50) sampleMarket = .ok l ∧
      (l.filter (fun o => o.action == "buy_both")).map
        (fun o => o.imbalance) =
        [1 - (sampleMarket.yes_ask + sampleMarket.no_ask)] :=
  yesno_buy_both_amended sampleMarket
    (by norm_num [sampleMarket, mkMarket])
    (by norm_num [sampleMarket, mkMarket])

/-! ## C3 — matchers on snapshots with missing/negative prices -/

/-- C3: the code contradicts the spec's error-handling requirement.  A
snapshot with missing (zero) prices makes the YES/NO matcher's detect raise
`ZeroDivisionError` (aborting the whole call and losing the other markets'
partial results: the well-priced `sampleMarket` later in the list yields
nothing), and the cross-market price check raises `ZeroDivisionError`
whenever the buy price is 0 and the counterpart bid is positive — the
situation `detect` reaches for any grouped pair quoting a zero ask against a
positive bid.  Neither matcher skips the offending market. -/
theorem matcher_zero_price_raises :
    yesNoDetect (1/2) (1/50) [zeroMarket, sampleMarket] =
      .error .zeroDivision ∧
    checkPriceDifference (1/2) zqA zqB "YES" zqA.yes_ask zqB.yes_bid =
      .error .zeroDivision := by
  constructor
  · simp [yesNoDetect, yesNoMarketOpps, pydiv, zeroMarket, mkMarket, bind,
      Except.instMonad, Except.bind, pure, Except.pure]
    norm_num
  · simp [checkPriceDifference, pydiv, zqA, zqB, mkMarket, bind,
      Except.instMonad, Except.bind, pure, Except.pure]

/-! ## C9 — time-based matcher skips far-from-resolution markets -/

/-- Any opportunity `_analyze_outcome` successfully returns records exactly
the analyzed market in its `market` field. -/
theorem analyzeOutcome_ok_market (sqrtF : ℚ → ℚ) (params : TimeBasedParams)
    (st : TBState) (market : Market) (outcome : String)
    (current_price time_to_resolution : ℚ) (o : TimeBasedOpportunity)
    (h : analyzeOutcome sqrtF params st market outcome current_price
      time_to_resolution = .ok (some o)) : o.market = market := by
  unfold analyzeOutcome at h
  rcases hl : List.lookup market.market_id st with _ | hist <;>
    simp only [hl, bind, Except.instMonad, Except.bind, pure, Except.pure] at h
  · simp at h
  · by_cases h3 : hist.length < 3
    · rw [if_pos h3] at h
      simp at h
    · rw [if_neg h3] at h
      by_cases h4 : ((hist.map
          (fun e => if outcome = "YES" then e.2.1 else e.2.2)).filter
          (fun p => 0 < p)).length < 3
      · rw [if_pos h4] at h
        simp at h
      · rw [if_neg h4] at h
        rcases hp1 : pydiv ((hist.map
            (fun e => if outcome = "YES" then e.2.1 else e.2.2)).filter
            (fun p => 0 < p)).sum
            ((((hist.map (fun e => if outcome = "YES" then e.2.1 else e.2.2)).filter
              (fun p => 0 < p)).length : ℚ)) with e | avg <;>
          simp only [hp1] at h
        · exact absurd h (by simp)
        · rcases hp2 : pydiv (current_price - avg) avg with e | q1 <;>
            simp only [hp2] at h
          · exact absurd h (by simp)
          · rcases hp3 : pydiv (((hist.map
                (fun e => if outcome = "YES" then e.2.1 else e.2.2)).filter
                (fun p => 0 < p)).map (fun p => (p - avg) ^ 2)).sum
                ((((hist.map (fun e => if outcome = "YES" then e.2.1 else e.2.2)).filter
                  (fun p => 0 < p)).length : ℚ)) with e | varnc <;>
              simp only [hp3] at h
            · exact absurd h (by simp)
            · rcases hpat : classifyPattern params (q1 * 100) time_to_resolution
                  (if 0 < avg then sqrtF varnc / avg else 0) with _ | tyconf <;>
                simp only [hpat] at h
              · exact absurd h (by simp)
              · rcases hp4 : pydiv (avg - current_price) current_price
                    with e | q2 <;> simp only [hp4] at h
                · exact absurd h (by simp)
                · by_cases h5 : 100 * (|q2 * 100| / 100) <
                      100 * params.min_profit_pct / 100
                  · rw [if_pos h5] at h
                    exact absurd h (by simp)
                  · rw [if_neg h5] at h
                    simp at h
                    rw [← h]

/-- C9: for every square-root interpretation, parameter set, history state,
clock value and market list, a market whose `end_date` lies more than
`time_window_hours` after the current time contributes no opportunity to the
time-based detect call, regardless of the contents of the rolling price
history: every emitted opportunity belongs to a market inside the window, so
filtering the output for the far market yields nothing. -/
theorem timebased_window_skip (sqrtF : ℚ → ℚ) (params : TimeBasedParams)
    (st : TBState) (now : ℚ) (markets : List Market) (m : Market)
    (hm : params.time_window_hours < (m.end_date - now) / 3600)
    (st2 : TBState) (opps : List TimeBasedOpportunity)
    (hdet : timeBasedDetect sqrtF params st now markets = .ok (st2, opps)) :
    opps.filter (fun o => o.market = m) = [] := by
  have main : ∀ (ms : List Market) (s : TBState) (s2 : TBState)
      (os : List TimeBasedOpportunity),
      timeBasedDetect sqrtF params s now ms = .ok (s2, os) →
      ∀ o ∈ os, (o.market.end_date - now) / 3600 ≤ params.time_window_hours := by
    intro ms
    induction ms with
    | nil =>
      intro s s2 os hd o ho
      rw [timeBasedDetect] at hd
      simp at hd
      rw [hd.2] at ho
      simp at ho
    | cons market rest ih =>
      intro s s2 os hd o ho
      rw [timeBasedDetect] at hd
      by_cases hskip : params.time_window_hours < (market.end_date - now) / 3600 ∨
          (market.end_date - now) / 3600 < 0
      · rw [if_pos hskip] at hd
        exact ih _ _ _ hd o ho
      · rw [if_neg hskip] at hd
        rcases hy : analyzeOutcome sqrtF params (updatePriceHistory s market now)
            market "YES" market.yes_price ((market.end_date - now) / 3600)
            with e | yesOpp <;>
          simp only [hy, bind, Except.instMonad, Except.bind, pure,
            Except.pure] at hd
        · exact absurd hd (by simp)
        · rcases hn : analyzeOutcome sqrtF params (updatePriceHistory s market now)
              market "NO" market.no_price ((market.end_date - now) / 3600)
              with e | noOpp <;> simp only [hn] at hd
          · exact absurd hd (by simp)
          · rcases hr : timeBasedDetect sqrtF params
                (updatePriceHistory s market now) now rest with e | pr <;>
              simp only [hr] at hd
            · exact absurd hd (by simp)
            · rcases pr with ⟨st', opps'⟩
              simp at hd
              rw [← hd.2] at ho
              have hwin : (market.end_date - now) / 3600 ≤
                  params.time_window_hours := by
                rcases not_or.mp hskip with ⟨ha, _⟩
                exact le_of_not_lt ha
              rcases List.mem_append.mp ho with hin | hin
              · have hys : yesOpp = some o := by
                  cases yesOpp with
                  | none => simp at hin
                  | some a => simp at hin; rw [hin]
                rw [analyzeOutcome_ok_market sqrtF params _ market "YES"
                  market.yes_price ((market.end_date - now) / 3600) o
                  (by rw [hy, hys])]
                exact hwin
              · rcases List.mem_append.mp hin with hin2 | hin2
                · have hns : noOpp = some o := by
                    cases noOpp with
                    | none => simp at hin2
                    | some a => simp at hin2; rw [hin2]
                  rw [analyzeOutcome_ok_market sqrtF params _ market "NO"
                    market.no_price ((market.end_date - now) / 3600) o
                    (by rw [hn, hns])]
                  exact hwin
                · exact ih _ _ _ hr o hin2
  have hforall := main markets st st2 opps hdet
  apply List.filter_eq_nil_iff.mpr
  intro o ho
  simp only [decide_eq_true_eq]
  intro heq
  have hle := hforall o ho
  rw [heq] at hle
  exact absurd hm (not_lt.mpr hle)

/-- Witness for C9: a market resolving 100 hours out (with default 24-hour
window) is beyond the window, and the detect run — which returns no
opportunities at all here — contains no opportunity for it. -/
theorem timebased_window_skip_witness :
    ({} : TimeBasedParams).time_window_hours <
      (farMarket.end_date - 0) / 3600 ∧
    (([] : List TimeBasedOpportunity).filter
      (fun o => o.market = farMarket)) = [] := by
  have hm : ({} : TimeBasedParams).time_window_hours <
      (farMarket.end_date - 0) / 3600 := by
    norm_num [farMarket, mkMarket]
  have heval : timeBasedDetect (fun _ => 0) {} [] 0 [farMarket] =
      .ok ([], []) := by
    rw [timeBasedDetect]
    rw [if_pos (Or.inl (by norm_num [farMarket, mkMarket] :
      ({} : TimeBasedParams).time_window_hours <
        (farMarket.end_date - 0) / 3600))]
    rw [timeBasedDetect]
  exact ⟨hm, timebased_window_skip (fun _ => 0) {} [] 0 [farMarket] farMarket
    hm [] [] heval⟩

/-! ## C6 — cross-market matcher is invariant under input re-ordering -/

/-- All embedded exceptions are the single `ZeroDivisionError`. -/
theorem pyErr_eq (e e' : PyErr) : e = e' := by
  cases e
  cases e'
  rfl

/-- Prepending an empty successful outcome is the identity for `addE`. -/
theorem addE_ok_zero_left (x : Except PyErr (Multiset CMTup)) :
    addE (.ok 0) x = x := by
  rcases x with e | s <;> simp [addE, bind, Except.instMonad, Except.bind,
    pure, Except.pure]

/-- Sequential combination of outcomes is commutative: multiset addition
commutes and every exception value is the same. -/
theorem addE_comm (x y : Except PyErr (Multiset CMTup)) :
    addE x y = addE y x := by
  rcases x with e | s <;> rcases y with e2 | s2
  · rw [pyErr_eq e e2]
  · simp [addE, bind, Except.instMonad, Except.bind, pure, Except.pure]
  · simp [addE, bind, Except.instMonad, Except.bind, pure, Except.pure]
  · simp [addE, bind, Except.instMonad, Except.bind, pure, Except.pure]
    exact add_comm s s2

/-- Sequential combination of outcomes is associative. -/
theorem addE_assoc (x y z : Except PyErr (Multiset CMTup)) :
    addE (addE x y) z = addE x (addE y z) := by
  rcases x with e | s <;> rcases y with e2 | s2 <;> rcases z with e3 | s3 <;>
    simp [addE, bind, Except.instMonad, Except.bind, pure, Except.pure]
  exact add_assoc s s2 s3

/-- Left-commutativity of `addE`, derived from commutativity and
associativity. -/
theorem addE_left_comm (x y z : Except PyErr (Multiset CMTup)) :
    addE x (addE y z) = addE y (addE x z) := by
  rw [← addE_assoc, addE_comm x y, addE_assoc]

/-- The tuple multiset of the four kept check results is the sum of the four
optional singletons. -/
theorem tupleMultiset_filterMap_quad (a b c d : Option CrossMarketOpportunity) :
    tupleMultiset ([a, b, c, d].filterMap id) =
      optT a + optT b + optT c + optT d := by
  rcases a with _ | oa <;> rcases b with _ | ob <;> rcases c with _ | oc <;>
    rcases d with _ | od <;>
    simp [tupleMultiset, optT, List.filterMap, ← Multiset.cons_coe]

/-- Swapping the two markets of a pair permutes the four directed checks, so
the pair's outcome — error or tuple multiset — is unchanged. -/
theorem pairChecks_swap (minp : ℚ) (m1 m2 : Market) :
    (pairChecks minp m1 m2).map tupleMultiset =
      (pairChecks minp m2 m1).map tupleMultiset := by
  unfold pairChecks
  rcases h1 : checkPriceDifference minp m1 m2 "YES" m1.yes_ask m2.yes_bid
      with e1 | o1 <;>
  rcases h2 : checkPriceDifference minp m2 m1 "YES" m2.yes_ask m1.yes_bid
      with e2 | o2 <;>
  rcases h3 : checkPriceDifference minp m1 m2 "NO" m1.no_ask m2.no_bid
      with e3 | o3 <;>
  rcases h4 : checkPriceDifference minp m2 m1 "NO" m2.no_ask m1.no_bid
      with e4 | o4 <;>
    simp [h1, h2, h3, h4, bind, Except.instMonad, Except.bind, pure,
      Except.pure, Except.map] <;>
    first
    | rfl
    | exact pyErr_eq _ _
    | (rw [tupleMultiset_filterMap_quad, tupleMultiset_filterMap_quad]; abel)

/-- One step of the pair loop combines the head pair's outcome with the
rest. -/
theorem pairsFold_map_cons (minp : ℚ) (p : Market × Market)
    (ps : List (Market × Market)) :
    (pairsFold minp (p :: ps)).map tupleMultiset =
      addE ((pairChecks minp p.1 p.2).map tupleMultiset)
        ((pairsFold minp ps).map tupleMultiset) := by
  rcases hc : pairChecks minp p.1 p.2 with e | os <;>
  rcases hr : pairsFold minp ps with e2 | os2 <;>
    simp [pairsFold, addE, hc, hr, bind, Except.instMonad, Except.bind,
      pure, Except.pure, Except.map, tupleMultiset]

/-- The pair loop over a concatenation combines the outcomes of the two
halves. -/
theorem pairsFold_map_append (minp : ℚ) (ps qs : List (Market × Market)) :
    (pairsFold minp (ps ++ qs)).map tupleMultiset =
      addE ((pairsFold minp ps).map tupleMultiset)
        ((pairsFold minp qs).map tupleMultiset) := by
  induction ps with
  | nil =>
    simp only [List.nil_append]
    rw [show (pairsFold minp []).map tupleMultiset = .ok 0 by
      simp [pairsFold, Except.map, tupleMultiset]]
    rw [addE_ok_zero_left]
  | cons p ps ih =>
    rw [List.cons_append, pairsFold_map_cons, pairsFold_map_cons, ih,
      addE_assoc]

/-- The combined outcome of pairing a fixed first market against a list of
second markets is invariant under permutation of that list. -/
theorem pairsFold_mapfst_perm (minp : ℚ) (a : Market) {t t' : List Market}
    (h : t.Perm t') :
    (pairsFold minp (t.map (fun m2 => (a, m2)))).map tupleMultiset =
      (pairsFold minp (t'.map (fun m2 => (a, m2)))).map tupleMultiset := by
  induction h with
  | nil => rfl
  | cons x h ih =>
    simp only [List.map_cons]
    rw [pairsFold_map_cons, pairsFold_map_cons, ih]
  | swap x y t =>
    simp only [List.map_cons]
    rw [pairsFold_map_cons, pairsFold_map_cons, pairsFold_map_cons,
      pairsFold_map_cons, addE_left_comm]
  | trans h1 h2 ih1 ih2 => rw [ih1, ih2]

/-- The combined outcome over all unordered position pairs of a group is
invariant under permutation of the group. -/
theorem pairsFold_offDiag_perm (minp : ℚ) {l l' : List Market}
    (h : l.Perm l') :
    (pairsFold minp (offDiagPairs l)).map tupleMultiset =
      (pairsFold minp (offDiagPairs l')).map tupleMultiset := by
  induction h with
  | nil => rfl
  | cons x h ih =>
    simp only [offDiagPairs]
    rw [pairsFold_map_append, pairsFold_map_append, ih,
      pairsFold_mapfst_perm minp x h]
  | swap x y t =>
    simp only [offDiagPairs, List.map_cons, List.cons_append]
    rw [pairsFold_map_cons, pairsFold_map_cons, pairsFold_map_append,
      pairsFold_map_append, pairsFold_map_append, pairsFold_map_append]
    rw [pairChecks_swap minp y x]
    rw [← addE_assoc, ← addE_assoc, ← addE_assoc, ← addE_assoc]
    congr 1
    rw [addE_assoc, addE_assoc]
    congr 1
    rw [addE_comm]
  | trans h1 h2 ih1 ih2 => rw [ih1, ih2]

/-- One step of the group loop combines the head group's outcome with the
rest. -/
theorem groupsFold_map_cons (minp : ℚ) (g : List Market)
    (gs : List (List Market)) :
    (groupsFold minp (g :: gs)).map tupleMultiset =
      addE ((findArbitrageInGroup minp g).map tupleMultiset)
        ((groupsFold minp gs).map tupleMultiset) := by
  rcases hc : findArbitrageInGroup minp g with e | os <;>
  rcases hr : groupsFold minp gs with e2 | os2 <;>
    simp [groupsFold, addE, hc, hr, bind, Except.instMonad, Except.bind,
      pure, Except.pure, Except.map, tupleMultiset]

/-- The group loop over the kept (size > 1) groups of a key list equals the
`addE`-fold over all keys, with small groups contributing the empty
outcome. -/
theorem groupsFold_filter_eq_foldTup (minp : ℚ) (grp : String → List Market)
    (ks : List String) :
    (groupsFold minp ((ks.map grp).filter
      (fun g => 1 < g.length))).map tupleMultiset =
      foldTup (fun k => if 1 < (grp k).length then
        (findArbitrageInGroup minp (grp k)).map tupleMultiset
      else .ok 0) ks := by
  induction ks with
  | nil => simp [groupsFold, foldTup, Except.map, tupleMultiset]
  | cons k ks ih =>
    simp only [List.map_cons, foldTup]
    by_cases hk : 1 < (grp k).length
    · have hfilter : List.filter (fun g => decide (1 < g.length))
          (grp k :: List.map grp ks) =
          grp k :: List.filter (fun g => decide (1 < g.length))
            (List.map grp ks) := by
        simp [List.filter_cons, hk]
      rw [hfilter, groupsFold_map_cons, ih, if_pos hk]
    · have hfilter : List.filter (fun g => decide (1 < g.length))
          (grp k :: List.map grp ks) =
          List.filter (fun g => decide (1 < g.length)) (List.map grp ks) := by
        simp [List.filter_cons, hk]
      rw [hfilter, ih, if_neg hk, addE_ok_zero_left]

/-- The first-appearance key list has no duplicates. -/
theorem firstKeys_nodup (l : List Market) : (firstKeys l).Nodup := by
  induction l with
  | nil => exact List.nodup_nil
  | cons m rest ih =>
    refine List.Nodup.cons ?_ (List.Nodup.filter _ ih)
    intro hmem
    have := List.of_mem_filter hmem
    simp at this

/-- A key appears in the first-appearance key list exactly when some market
of the input normalizes to it. -/
theorem firstKeys_mem (l : List Market) (k : String) :
    k ∈ firstKeys l ↔ ∃ m ∈ l, normalizeQuestion m.question = k := by
  induction l with
  | nil => simp [firstKeys]
  | cons m rest ih =>
    simp only [firstKeys, List.mem_cons, List.mem_filter]
    constructor
    · rintro (h | ⟨h1, _⟩)
      · exact ⟨m, Or.inl rfl, h.symm⟩
      · obtain ⟨m2, hm2, hk⟩ := ih.mp h1
        exact ⟨m2, Or.inr hm2, hk⟩
    · rintro ⟨m2, hm2, hk⟩
      rcases hm2 with h | h
      · left
        rw [h] at hk
        exact hk.symm
      · by_cases heq : k = normalizeQuestion m.question
        · left
          exact heq
        · right
          refine ⟨ih.mpr ⟨m2, h, hk⟩, ?_⟩
          simp [heq]

/-- Permuting the input permutes the (duplicate-free) key list. -/
theorem firstKeys_perm {l l' : List Market} (h : l.Perm l') :
    (firstKeys l).Perm (firstKeys l') := by
  rw [List.perm_ext_iff_of_nodup (firstKeys_nodup l) (firstKeys_nodup l')]
  intro k
  rw [firstKeys_mem, firstKeys_mem]
  constructor
  · rintro ⟨m, hm, hk⟩
    exact ⟨m, h.mem_iff.mp hm, hk⟩
  · rintro ⟨m, hm, hk⟩
    exact ⟨m, h.mem_iff.mpr hm, hk⟩

/-- `foldTup` only depends on the per-key outcomes of the keys present. -/
theorem foldTup_congr (f g : String → Except PyErr (Multiset CMTup))
    (ks : List String) (h : ∀ k ∈ ks, f k = g k) :
    foldTup f ks = foldTup g ks := by
  induction ks with
  | nil => rfl
  | cons k ks ih =>
    simp only [foldTup]
    rw [h k (List.mem_cons_self k ks), ih (fun k2 hk2 =>
      h k2 (List.mem_cons_of_mem k hk2))]

/-- `foldTup` is invariant under permutation of the key list. -/
theorem foldTup_perm (f : String → Except PyErr (Multiset CMTup))
    {ks ks' : List String} (h : ks.Perm ks') :
    foldTup f ks = foldTup f ks' := by
  induction h with
  | nil => rfl
  | cons x h ih => simp only [foldTup]; rw [ih]
  | swap x y t => simp only [foldTup]; rw [addE_left_comm]
  | trans h1 h2 ih1 ih2 => rw [ih1, ih2]

/-- C6: for every minimum-profit threshold and every permutation of the input
snapshot list, the cross-market matcher's output, compared as an unordered
multiset of (buy market id, sell market id, outcome side, profit percentage)
tuples, is identical — including the exceptional case: one run raises the
(unique) `ZeroDivisionError` exactly when the other does. -/
theorem crossmarket_perm_invariant (minp : ℚ) {l l' : List Market}
    (h : l.Perm l') :
    crossMarketTuples minp l = crossMarketTuples minp l' := by
  unfold crossMarketTuples crossMarketDetect groupSimilarMarkets
  rw [groupsFold_filter_eq_foldTup minp
      (fun k => l.filter (fun m => normalizeQuestion m.question = k))
      (firstKeys l),
    groupsFold_filter_eq_foldTup minp
      (fun k => l'.filter (fun m => normalizeQuestion m.question = k))
      (firstKeys l')]
  have hcongr : ∀ k ∈ firstKeys l,
      (if 1 < (l.filter (fun m => normalizeQuestion m.question = k)).length then
        (findArbitrageInGroup minp
          (l.filter (fun m => normalizeQuestion m.question = k))).map
          tupleMultiset
      else .ok 0) =
      (if 1 < (l'.filter (fun m => normalizeQuestion m.question = k)).length then
        (findArbitrageInGroup minp
          (l'.filter (fun m => normalizeQuestion m.question = k))).map
          tupleMultiset
      else .ok 0) := by
    intro k _
    have hfp : (l.filter (fun m => normalizeQuestion m.question = k)).Perm
        (l'.filter (fun m => normalizeQuestion m.question = k)) :=
      h.filter _
    rw [hfp.length_eq]
    by_cases hk :
        1 < (l'.filter (fun m => normalizeQuestion m.question = k)).length
    · rw [if_pos hk, if_pos hk]
      unfold findArbitrageInGroup
      exact pairsFold_offDiag_perm minp hfp
    · rw [if_neg hk, if_neg hk]
  rw [foldTup_congr _ _ _ hcongr]
  exact foldTup_perm _ (firstKeys_perm h)

/-- Witness for C6: swapping the two same-question scenario markets leaves
the tuple multiset unchanged. -/
theorem crossmarket_perm_invariant_witness :
    ([xmA, xmB] : List Market).Perm [xmB, xmA] ∧
    crossMarketTuples (1/2) [xmA, xmB] = crossMarketTuples (1/2) [xmB, xmA] := by
  have hp : ([xmA, xmB] : List Market).Perm [xmB, xmA] :=
    List.Perm.swap xmB xmA []
  exact ⟨hp, crossmarket_perm_invariant (1/2) hp⟩
